import Mathlib

/-!
Verification of the level-derivation and signal engine of the
`seed_bullnettraders_gex` repository against its design specification.

The Python sources are shallowly embedded as follows:
* floating-point numbers are modelled as exact rationals (`ℚ`);
* Python integers as `ℤ`;
* calendar dates (`YYYY-MM-DD` strings, compared lexicographically and
  subtracted as whole days in the source) as day numbers (`ℤ`);
* Python's `sorted` (a stable sort) as `List.insertionSort`, which is also
  stable, hence computes the same list;
* arithmetic that can raise `ZeroDivisionError` is `Option`-valued, returning
  `none` exactly where the Python code would raise;
* Python's `round(x, 2)` (round half to even) is `round2` below;
* the Black-Scholes gamma `bs_gamma` of `gex_calculator.py` is transcendental
  (`log`, `exp`, the normal pdf) and is threaded through `calculate_gex` as an
  abstract function parameter `bsg`; every theorem below quantifies over it.
-/

/-- Python's integer rounding `round(q)`: round half to even. -/
def pyRound (q : ℚ) : ℤ :=
  let f := ⌊q⌋
  if 2 * q < 2 * f + 1 then f
  else if 2 * f + 1 < 2 * q then f + 1
  else if 2 ∣ f then f else f + 1

/-- Python's `round(q, 2)`. -/
def round2 (q : ℚ) : ℚ := (pyRound (q * 100) : ℚ) / 100

/-! ## Sticky level memory (`dp_memory.py`)

`update_levels(ticker, new_levels, current_price)` is modelled as a pure
function of the previously stored levels (the file I/O of `load_memory` /
`save_memory` is the persistence collaborator), the offered zones, the
current price (`Option ℚ`: `none` models Python `None`) and today's day
number `now`. -/

/-- One persisted sticky dark-pool level: price, volume, trade count, type
tag, first-seen date (`added`), last-seen date, repeat-day counter. -/
structure StickyLevel where
  price : ℚ
  volume : ℤ
  trades : ℤ
  tag : String
  added : ℤ
  lastSeen : ℤ
  seenCount : ℤ
deriving DecidableEq

/-- One zone offered to the memory on an update cycle (one `new_levels`
entry; `strike = lvl.get('strike', lvl.get('price', 0))`). -/
structure NewZone where
  strike : ℚ
  volume : ℤ
  trades : ℤ
  tag : String
deriving DecidableEq

/-- `HIT_TOLERANCE = 0.0015` from `dp_memory.py`. -/
def HIT_TOLERANCE : ℚ := 15 / 10000

/-- Age-based expiry test of `update_levels`: the age in days since first
seen strictly exceeds `MAX_AGE_DAYS = 14`. -/
def isExpired (now : ℤ) (l : StickyLevel) : Bool := decide (14 < now - l.added)

/-- Hit test of `update_levels`: the current price is truthy and positive and
its relative distance to the level (relative to the current price) is
strictly below `HIT_TOLERANCE`. -/
def isHit (cp : Option ℚ) (l : StickyLevel) : Bool :=
  match cp with
  | none => false
  | some p => decide (0 < p) && decide (|p - l.price| / p < HIT_TOLERANCE)

/-- Step 1 of `update_levels` (`dp_memory.py`, the loop over `existing`):
drop each expired level, then each level the current price has reached,
keep the rest in order. -/
def filter_existing (now : ℤ) (cp : Option ℚ) : List StickyLevel → List StickyLevel
  | [] => []
  | l :: ls =>
    if 14 < now - l.added then
      filter_existing now cp ls
    else
      match cp with
      | some p =>
        if 0 < p ∧ |p - l.price| / p < HIT_TOLERANCE then filter_existing now cp ls
        else l :: filter_existing now cp ls
      | none => l :: filter_existing now cp ls

/-- The in-place update of the first stored level whose rounded price equals
the rounded strike of the recurring zone: volume is raised to the new volume
only when strictly larger (refreshing `last_seen` only in that case), and
`seen_count` is always incremented. -/
def update_first (now : ℤ) (z : NewZone) : List StickyLevel → List StickyLevel
  | [] => []
  | a :: rest =>
    if round2 a.price = round2 z.strike then
      (if a.volume < z.volume then
        { a with volume := z.volume, lastSeen := now, seenCount := a.seenCount + 1 }
      else
        { a with seenCount := a.seenCount + 1 }) :: rest
    else a :: update_first now z rest

/-- Step 2 of `update_levels`, one candidate zone: skip it when below
`MIN_VOLUME_TO_REMEMBER = 250000`; update the matching stored level when one
exists (never touching the new-level budget); otherwise append it as a fresh
level unless the `MAX_NEW_PER_DAY = 3` budget is exhausted.  The state is the
current active list together with the number of levels added this cycle. -/
def add_step (now : ℤ) (st : List StickyLevel × ℕ) (z : NewZone) : List StickyLevel × ℕ :=
  if z.volume < 250000 then st
  else if round2 z.strike ∈ st.1.map (fun a => round2 a.price) then
    (update_first now z st.1, st.2)
  else if 3 ≤ st.2 then st
  else
    (st.1 ++ [{ price := z.strike, volume := z.volume, trades := z.trades,
                tag := z.tag, added := now, lastSeen := now, seenCount := 1 }],
     st.2 + 1)

/-- Candidate zones sorted by volume descending (`sorted(..., reverse=True)`,
stable). -/
def sort_zones_desc (zs : List NewZone) : List NewZone :=
  zs.insertionSort (fun a b => b.volume ≤ a.volume)

/-- Active levels sorted by volume descending (`active.sort(..., reverse=True)`,
stable). -/
def sort_levels_desc (ls : List StickyLevel) : List StickyLevel :=
  ls.insertionSort (fun a b => b.volume ≤ a.volume)

/-- Step 2 of `update_levels` over all candidates, biggest prints first. -/
def add_phase (now : ℤ) (active : List StickyLevel) (zones : List NewZone) :
    List StickyLevel × ℕ :=
  (sort_zones_desc zones).foldl (add_step now) (active, 0)

/-- The pure core of `dp_memory.update_levels`: filter the stored levels,
fold in the new zones, sort by volume descending and keep at most 20. -/
def update_levels (now : ℤ) (cp : Option ℚ) (existing : List StickyLevel)
    (zones : List NewZone) : List StickyLevel :=
  (sort_levels_desc (add_phase now (filter_existing now cp existing) zones).1).take 20

/-! ## Dark-pool clustering (`darkpool.py`, `_cluster_dp_levels`) -/

/-- A raw dark-pool observation fed to the clustering pass. -/
structure DpLevel where
  price : ℚ
  volume : ℚ
  trades : ℤ
deriving DecidableEq

/-- A clustered dark-pool zone: volume-weighted average price rounded to two
decimals, summed volume and trades, and the number of raw levels merged. -/
structure Zone where
  price : ℚ
  volume : ℚ
  trades : ℤ
  numLevels : ℕ
deriving DecidableEq

/-- The grouping loop of `_cluster_dp_levels`: walk the price-sorted levels,
growing the current cluster while the next level is within
`threshold_pct / 100` of the volume-weighted centre of the cluster so far,
else closing the cluster.  The centre divides by `max(total volume, 1)`; the
subsequent relative-distance division raises `ZeroDivisionError` when the
centre is zero, modelled by `none`. -/
def gather (tol : ℚ) : List DpLevel → List DpLevel → List (List DpLevel) →
    Option (List (List DpLevel))
  | [], current, acc => some (acc ++ [current])
  | l :: rest, current, acc =>
    let center := ((current.map fun x => x.price * x.volume).sum) /
      max ((current.map fun x => x.volume).sum) 1
    if center = 0 then none
    else if |l.price - center| / center < tol / 100 then
      gather tol rest (current ++ [l]) acc
    else
      gather tol rest [l] (acc ++ [current])

/-- Collapse one cluster into a zone: volume-weighted average price (plain
average when the total volume is not positive), rounded to 2 decimals, with
summed volume, summed trades and the member count. -/
def merge_zone (cluster : List DpLevel) : Zone :=
  let totalVol := (cluster.map fun x => x.volume).sum
  let vwap :=
    if 0 < totalVol then ((cluster.map fun x => x.price * x.volume).sum) / totalVol
    else ((cluster.map fun x => x.price).sum) / (cluster.length : ℚ)
  { price := round2 vwap
    volume := totalVol
    trades := (cluster.map fun x => x.trades).sum
    numLevels := cluster.length }

/-- `darkpool._cluster_dp_levels(levels, threshold_pct)`: sort by price
ascending, group, and merge each group into a zone. -/
def cluster_dp_levels (levels : List DpLevel) (thresholdPct : ℚ) :
    Option (List Zone) :=
  match levels.insertionSort (fun a b => a.price ≤ b.price) with
  | [] => some []
  | s :: rest => (gather thresholdPct rest [s] []).map fun gs => gs.map merge_zone

/-- Re-feeding a produced zone into the clustering pass reads its `price`,
`volume` and `trades` keys. -/
def zone_to_level (z : Zone) : DpLevel :=
  { price := z.price, volume := z.volume, trades := z.trades }

/-! ## Accumulation detector (`accumulation.py`) -/

/-- One archived print: price, share count, side label. -/
structure RawPrint where
  price : ℚ
  shares : ℤ
  side : String
deriving DecidableEq

/-- An archived print together with the day it was observed on. -/
structure AccTrade where
  date : ℤ
  price : ℚ
  shares : ℤ
  side : String
deriving DecidableEq

/-- An accumulation cluster under construction: running volume-weighted
reference price and the member trades in insertion order. -/
structure AccCluster where
  refPrice : ℚ
  trades : List AccTrade
deriving DecidableEq

/-- Place one trade into the first cluster whose reference price is within
`CLUSTER_PCT = 0.003` of the trade's price, recomputing that cluster's
reference price as the share-weighted average of its members; start a new
cluster at the end otherwise.  Both divisions (relative distance by the
reference price, weighted average by the total share count) raise
`ZeroDivisionError` on a zero denominator, modelled by `none`. -/
def place_trade (t : AccTrade) : List AccCluster → Option (List AccCluster)
  | [] => some [{ refPrice := t.price, trades := [t] }]
  | c :: cs =>
    if c.refPrice = 0 then none
    else if |t.price - c.refPrice| / c.refPrice ≤ 3 / 1000 then
      let ts := c.trades ++ [t]
      let denom := (ts.map fun u => u.shares).sum
      if denom = 0 then none
      else some ({ refPrice := ((ts.map fun u => u.price * (u.shares : ℚ)).sum) / (denom : ℚ),
                   trades := ts } :: cs)
    else (place_trade t cs).map fun cs' => c :: cs'

/-- The clustering loop of `detect_accumulation` over the price-sorted trades. -/
def build_clusters (ts : List AccTrade) : Option (List AccCluster) :=
  ts.foldlM (fun cs t => place_trade t cs) []

/-- One reported accumulation signal. -/
structure AccSignal where
  price : ℚ
  days : ℕ
  totalVol : ℤ
  bidVol : ℤ
  askVol : ℤ
  numTrades : ℕ
  bullish : Bool
  strength : ℚ
deriving DecidableEq

/-- Evaluate one cluster: count distinct active days and total/bid/ask
volume; discard it when active on fewer than `MIN_DAYS = 2` distinct days or
below `MIN_VOLUME = 100000` total shares; otherwise build the signal with
the binary bias and the strength score `days × volume / 100000`. -/
def mk_signal (c : AccCluster) : Option AccSignal :=
  let daysActive := ((c.trades.map fun t => t.date).dedup).length
  let totalVol := (c.trades.map fun t => t.shares).sum
  let bidVol := ((c.trades.filter fun t => t.side = "Bid").map fun t => t.shares).sum
  let askVol := ((c.trades.filter fun t => t.side = "Ask").map fun t => t.shares).sum
  if daysActive < 2 ∨ totalVol < 100000 then none
  else some
    { price := round2 c.refPrice
      days := daysActive
      totalVol := totalVol
      bidVol := bidVol
      askVol := askVol
      numTrades := c.trades.length
      bullish := decide (askVol < bidVol)
      strength := (daysActive : ℚ) * ((totalVol : ℚ) / 100000) }

/-- Pool the archived trades of the days inside the lookback window, each
tagged with its date (`relevant` and `all_trades` of `detect_accumulation`). -/
def trades_of (now lookback : ℤ) (archive : List (ℤ × List RawPrint)) : List AccTrade :=
  (archive.filter fun e => now - lookback ≤ e.1).flatMap fun e =>
    e.2.map fun p => { date := e.1, price := p.price, shares := p.shares, side := p.side }

/-- Trades sorted by price ascending (`sorted(all_trades, key=price)`, stable). -/
def sort_trades (ts : List AccTrade) : List AccTrade :=
  ts.insertionSort (fun a b => a.price ≤ b.price)

/-- Signals sorted by strength descending (stable). -/
def sort_signals (ss : List AccSignal) : List AccSignal :=
  ss.insertionSort (fun a b => b.strength ≤ a.strength)

/-- `accumulation.detect_accumulation`: pool and sort the windowed trades,
cluster them, score each cluster, keep the qualifying ones sorted by strength
descending, and return the top 5; `none` models an uncaught
`ZeroDivisionError` inside the clustering loop. -/
def detect_accumulation (now lookback : ℤ) (archive : List (ℤ × List RawPrint)) :
    Option (List AccSignal) :=
  (build_clusters (sort_trades (trades_of now lookback archive))).map fun clusters =>
    (sort_signals (clusters.filterMap mk_signal)).take 5

/-! ## Options chain normalizer and GEX engine (`gex_calculator.py`) -/

/-- Rejection reasons of `parse_options` (the `skipped` dictionary's keys;
a missing and an unparseable instrument identifier are both counted under
`no_symbol`). -/
inductive SkipReason where
  | noSymbol
  | noStrike
  | outOfRange
  | expired
  | noIv
deriving DecidableEq

/-- The rejection counters of `parse_options`. -/
structure Skipped where
  noSymbol : ℕ
  noStrike : ℕ
  outOfRange : ℕ
  expired : ℕ
  noIv : ℕ
deriving DecidableEq

/-- All-zero rejection counters. -/
def skipped_zero : Skipped := ⟨0, 0, 0, 0, 0⟩

/-- Count one rejection under its reason. -/
def bump (sk : Skipped) : SkipReason → Skipped
  | .noSymbol => { sk with noSymbol := sk.noSymbol + 1 }
  | .noStrike => { sk with noStrike := sk.noStrike + 1 }
  | .outOfRange => { sk with outOfRange := sk.outOfRange + 1 }
  | .expired => { sk with expired := sk.expired + 1 }
  | .noIv => { sk with noIv := sk.noIv + 1 }

/-- A raw option record from the feed.  The regex parse of the instrument
identifier (`parse_option_symbol`) is abstracted to its result: `none` for a
missing or unparseable symbol, otherwise the expiry day number, the call
flag and the strike.  Numeric fields are optional; `opt.get(k, 0) or 0`
coalesces a missing or null field to 0, modelled by `Option.getD 0`. -/
structure RawOption where
  symbol : Option (ℤ × Bool × ℚ)
  open_interest : Option ℤ
  volume : Option ℤ
  iv : Option ℚ
  gamma : Option ℚ
  bid : Option ℚ
  ask : Option ℚ
deriving DecidableEq

/-- A parsed option contract record as appended by `parse_options`. -/
structure OptRecord where
  strike : ℚ
  isCall : Bool
  expiration : ℤ
  dte : ℤ
  T : ℚ
  oi : ℤ
  volume : ℤ
  iv : ℚ
  gamma : ℚ
  bid : ℚ
  ask : ℚ
deriving DecidableEq

/-- The body of the `parse_options` loop for one raw record: reject (with a
reason) or keep, substituting the fixed default volatility `0.20` when the
implied volatility is not positive but a positive quote exists.
`STRIKE_RANGE_PCT = 0.20`. -/
def parse_one_option (now : ℤ) (spot : ℚ) (o : RawOption) :
    Except SkipReason OptRecord :=
  match o.symbol with
  | none => .error .noSymbol
  | some (e, isC, k) =>
    if k ≤ 0 then .error .noStrike
    else if 1 / 5 < |k - spot| / spot then .error .outOfRange
    else
      let dte := e - now
      if dte < 0 then .error .expired
      else
        let iv0 := o.iv.getD 0
        let bid := o.bid.getD 0
        let ask := o.ask.getD 0
        let base : OptRecord :=
          { strike := k, isCall := isC, expiration := e, dte := dte,
            T := max ((dte : ℚ) / 365) (1 / 365),
            oi := o.open_interest.getD 0, volume := o.volume.getD 0,
            iv := iv0, gamma := o.gamma.getD 0, bid := bid, ask := ask }
        if iv0 ≤ 0 then
          if bid ≤ 0 ∧ ask ≤ 0 then .error .noIv
          else .ok { base with iv := 1 / 5 }
        else .ok base

/-- `gex_calculator.parse_options`: the filtered record list in feed order,
plus the rejection counters. -/
def parse_options (now : ℤ) (spot : ℚ) : List RawOption → List OptRecord × Skipped
  | [] => ([], skipped_zero)
  | o :: os =>
    let rest := parse_options now spot os
    match parse_one_option now spot o with
    | .ok r => (r :: rest.1, rest.2)
    | .error reason => (rest.1, bump rest.2 reason)

/-- Per-contract gamma of `calculate_gex`: the feed-observed gamma when
positive, else the Black-Scholes fallback `bsg spot strike T iv` (the
transcendental `bs_gamma` abstracted as a parameter). -/
def calc_gamma (bsg : ℚ → ℚ → ℚ → ℚ → ℚ) (spot : ℚ) (r : OptRecord) : ℚ :=
  if 0 < r.gamma then r.gamma else bsg spot r.strike r.T r.iv

/-- Per-contract dealer gamma exposure:
`gamma * oi * 100 * spot^2 * 0.01`, positive for calls, negated for puts. -/
def dealer_gex (bsg : ℚ → ℚ → ℚ → ℚ → ℚ) (spot : ℚ) (r : OptRecord) : ℚ :=
  let gex := calc_gamma bsg spot r * (r.oi : ℚ) * 100 * spot * spot * (1 / 100)
  if r.isCall then gex else -gex

/-- One row of the per-strike aggregate `gex_by_strike`. -/
structure StrikeRow where
  strike : ℚ
  callGex : ℚ
  putGex : ℚ
  netGex : ℚ
  totalOi : ℤ
  totalVolume : ℤ
deriving DecidableEq

/-- The `MAX_EXPIRATIONS = 12` earliest distinct expirations of the chain
(`sorted(df['expiration'].unique())[:12]`). -/
def expirations_cap (df : List OptRecord) : List ℤ :=
  (((df.map fun r => r.expiration).dedup).insertionSort (fun a b => a ≤ b)).take 12

/-- `gex_calculator.calculate_gex`: restrict to the capped expirations, then
aggregate the dealer exposures per distinct strike, ascending. -/
def calculate_gex (bsg : ℚ → ℚ → ℚ → ℚ → ℚ) (spot : ℚ) (df : List OptRecord) :
    List StrikeRow :=
  let df' := df.filter fun r => r.expiration ∈ expirations_cap df
  let strikes := ((df'.map fun r => r.strike).dedup).insertionSort (fun a b => a ≤ b)
  strikes.map fun s =>
    let grp := df'.filter fun r => r.strike = s
    { strike := s
      callGex := ((grp.filter fun r => r.isCall).map (dealer_gex bsg spot)).sum
      putGex := ((grp.filter fun r => !r.isCall).map (dealer_gex bsg spot)).sum
      netGex := (grp.map (dealer_gex bsg spot)).sum
      totalOi := (grp.map fun r => r.oi).sum
      totalVolume := (grp.map fun r => r.volume).sum }

/-- Rows sorted by strike ascending (`gex_df.sort_values('strike')`). -/
def sort_by_strike (rows : List StrikeRow) : List StrikeRow :=
  rows.insertionSort (fun a b => a.strike ≤ b.strike)

/-- One step of the gamma-flip scan of `find_key_levels`: when the adjacent
net exposures change sign, linearly interpolate the crossing and keep it if
it is strictly closer to spot than the best crossing so far (the state holds
the best distance and crossing; `none` is the initial `inf` state). -/
def flip_step (spot : ℚ) (st : Option (ℚ × ℚ)) (p q : StrikeRow) : Option (ℚ × ℚ) :=
  if p.netGex * q.netGex < 0 then
    let fp := p.strike + |p.netGex| / (|p.netGex| + |q.netGex|) * (q.strike - p.strike)
    let dist := |fp - spot|
    match st with
    | none => some (dist, fp)
    | some (md, gf) => if dist < md then some (dist, fp) else some (md, gf)
  else st

/-- The gamma-flip scan over all adjacent pairs of the sorted rows. -/
def flip_scan (spot : ℚ) : List StrikeRow → Option (ℚ × ℚ) → Option (ℚ × ℚ)
  | p :: q :: rest, st => flip_scan spot (q :: rest) (flip_step spot st p q)
  | _, st => st

/-- The gamma-flip slice of `gex_calculator.find_key_levels`: sort the rows
by strike, scan the adjacent sign changes for the interpolated crossing
closest to spot, and round the result to two decimals
(`levels['gamma_flip'] = round(gamma_flip, 2)`); `none` when no adjacent
pair changes sign. -/
def find_gamma_flip (spot : ℚ) (rows : List StrikeRow) : Option ℚ :=
  (flip_scan spot (sort_by_strike rows) none).map fun x => round2 x.2

/-- The interpolated zero crossings of every adjacent sign-changing pair of
an already-sorted row list, in strike order. -/
def adj_crossings : List StrikeRow → List ℚ
  | p :: q :: rest =>
    (if p.netGex * q.netGex < 0 then
      [p.strike + |p.netGex| / (|p.netGex| + |q.netGex|) * (q.strike - p.strike)]
    else []) ++ adj_crossings (q :: rest)
  | _ => []

/-- The interpolated zero crossings of a strike table, in ascending strike
order. -/
def crossings (rows : List StrikeRow) : List ℚ :=
  adj_crossings (sort_by_strike rows)

/-- The gamma-flip scan expressed as a fold over the crossing candidates. -/
def flip_fold (spot : ℚ) : List ℚ → Option (ℚ × ℚ) → Option (ℚ × ℚ)
  | [], st => st
  | c :: cs, st =>
    flip_fold spot cs
      (match st with
       | none => some (|c - spot|, c)
       | some (md, gf) => if |c - spot| < md then some (|c - spot|, c) else some (md, gf))

/-! ## Concrete fixtures used by the evaluation theorems below -/

/-- A stored sticky level used by several concrete scenarios. -/
def mk_test_level (p : ℚ) (v : ℤ) : StickyLevel :=
  { price := p, volume := v, trades := 0, tag := "DP Level",
    added := 0, lastSeen := 0, seenCount := 1 }

/-- A full memory of 20 active levels at prices 100..119, volumes 1000..20000. -/
def mem20 : List StickyLevel :=
  (List.range 20).map fun (i : ℕ) => mk_test_level (100 + (i : ℚ)) (1000 * ((i : ℤ) + 1))

/-- The lowest-volume stored level of `mem20`. -/
def lvl_c4 : StickyLevel := mk_test_level 100 1000

/-- A fresh qualifying zone offered together with `mem20`. -/
def zone_c4 : NewZone := { strike := 200, volume := 300000, trades := 0, tag := "DP Level" }

/-- A single-level memory for the retention witness. -/
def mem_w4 : List StickyLevel := [mk_test_level 10 400000]

/-- A single-level memory for the matching-zone witness. -/
def mem_w5 : List StickyLevel := [mk_test_level 50 260000]

/-- The stored level of `mem_w5`. -/
def lvl_w5 : StickyLevel := mk_test_level 50 260000

/-- A recurring zone matching `mem_w5` with a larger volume. -/
def zone_w5 : NewZone := { strike := 50, volume := 270000, trades := 1, tag := "DP Level" }

/-- A seeded memory of 21 active levels at prices 300..320. -/
def mem21 : List StickyLevel :=
  (List.range 21).map fun (i : ℕ) => mk_test_level (300 + (i : ℚ)) (1000 * ((i : ℤ) + 1))

/-- The lowest-volume stored level of `mem21`. -/
def lvl_c10 : StickyLevel := mk_test_level 300 1000

/-- A single-level memory for the no-price witness. -/
def mem_w10 : List StickyLevel := [mk_test_level 70 5000]

/-- Two raw dark-pool levels whose zones round onto each other: separated on
the first pass, merged on the second. -/
def lvls_c7 : List DpLevel :=
  [{ price := 103.0004, volume := 500, trades := 2 },
   { price := 103.15497, volume := 300, trades := 3 }]

/-- The two zones the first clustering pass produces from `lvls_c7`. -/
def zs_c7 : List Zone :=
  [{ price := 103, volume := 500, trades := 2, numLevels := 1 },
   { price := 103.15, volume := 300, trades := 3, numLevels := 1 }]

/-- A single raw dark-pool level for the re-clustering witness. -/
def lvls_w7 : List DpLevel := [{ price := 200, volume := 10, trades := 1 }]

/-- The zone produced from `lvls_w7`. -/
def zs_w7 : List Zone := [{ price := 200, volume := 10, trades := 1, numLevels := 1 }]

/-- One archived day of six well-separated prints, active on two days in
`arch_c6`: six qualifying clusters, one more than the top-5 cut. -/
def day_c6 : List RawPrint :=
  [{ price := 100, shares := 50000, side := "Bid" },
   { price := 110, shares := 60000, side := "Bid" },
   { price := 120, shares := 70000, side := "Bid" },
   { price := 130, shares := 80000, side := "Bid" },
   { price := 140, shares := 90000, side := "Bid" },
   { price := 150, shares := 100000, side := "Bid" }]

/-- A two-day archive producing six qualifying accumulation clusters. -/
def arch_c6 : List (ℤ × List RawPrint) := [(1, day_c6), (2, day_c6)]

/-- The clusters `detect_accumulation` builds from `arch_c6`. -/
def cs_c6 : List AccCluster :=
  [{ refPrice := 100, trades := [⟨1, 100, 50000, "Bid"⟩, ⟨2, 100, 50000, "Bid"⟩] },
   { refPrice := 110, trades := [⟨1, 110, 60000, "Bid"⟩, ⟨2, 110, 60000, "Bid"⟩] },
   { refPrice := 120, trades := [⟨1, 120, 70000, "Bid"⟩, ⟨2, 120, 70000, "Bid"⟩] },
   { refPrice := 130, trades := [⟨1, 130, 80000, "Bid"⟩, ⟨2, 130, 80000, "Bid"⟩] },
   { refPrice := 140, trades := [⟨1, 140, 90000, "Bid"⟩, ⟨2, 140, 90000, "Bid"⟩] },
   { refPrice := 150, trades := [⟨1, 150, 100000, "Bid"⟩, ⟨2, 150, 100000, "Bid"⟩] }]

/-- The weakest qualifying cluster of `cs_c6` (2 days, exactly 100000 shares). -/
def c_c6 : AccCluster :=
  { refPrice := 100, trades := [⟨1, 100, 50000, "Bid"⟩, ⟨2, 100, 50000, "Bid"⟩] }

/-- The signal of `c_c6`. -/
def s_c6 : AccSignal :=
  { price := 100, days := 2, totalVol := 100000, bidVol := 100000, askVol := 0,
    numTrades := 2, bullish := true, strength := 2 }

/-- The top-5 output `detect_accumulation` returns for `arch_c6`. -/
def out_c6 : List AccSignal :=
  [{ price := 150, days := 2, totalVol := 200000, bidVol := 200000, askVol := 0,
     numTrades := 2, bullish := true, strength := 4 },
   { price := 140, days := 2, totalVol := 180000, bidVol := 180000, askVol := 0,
     numTrades := 2, bullish := true, strength := 18 / 5 },
   { price := 130, days := 2, totalVol := 160000, bidVol := 160000, askVol := 0,
     numTrades := 2, bullish := true, strength := 16 / 5 },
   { price := 120, days := 2, totalVol := 140000, bidVol := 140000, askVol := 0,
     numTrades := 2, bullish := true, strength := 14 / 5 },
   { price := 110, days := 2, totalVol := 120000, bidVol := 120000, askVol := 0,
     numTrades := 2, bullish := true, strength := 12 / 5 }]

/-- A two-day archive with a single qualifying cluster. -/
def arch_w6 : List (ℤ × List RawPrint) :=
  [(1, [{ price := 100, shares := 60000, side := "Bid" }]),
   (2, [{ price := 100, shares := 60000, side := "Ask" }])]

/-- The single cluster built from `arch_w6`. -/
def cs_w6 : List AccCluster :=
  [{ refPrice := 100, trades := [⟨1, 100, 60000, "Bid"⟩, ⟨2, 100, 60000, "Ask"⟩] }]

/-- The cluster of `cs_w6`. -/
def c_w6 : AccCluster :=
  { refPrice := 100, trades := [⟨1, 100, 60000, "Bid"⟩, ⟨2, 100, 60000, "Ask"⟩] }

/-- The signal of `c_w6`. -/
def s_w6 : AccSignal :=
  { price := 100, days := 2, totalVol := 120000, bidVol := 60000, askVol := 60000,
    numTrades := 2, bullish := false, strength := 12 / 5 }

/-- The output `detect_accumulation` returns for `arch_w6`. -/
def out_w6 : List AccSignal := [s_w6]

/-- A raw option record with an unparseable instrument identifier and no
volatility signal. -/
def raw_no_symbol : RawOption :=
  { symbol := none, open_interest := none, volume := none, iv := none,
    gamma := none, bid := none, ask := none }

/-- A raw option record with a valid symbol, no implied volatility, but a
positive bid quote. -/
def raw_w8 : RawOption :=
  { symbol := some (10, true, 100), open_interest := some 500, volume := some 10,
    iv := some 0, gamma := none, bid := some 1, ask := none }

/-- The abstract Black-Scholes gamma instantiated to the zero function for
the aggregation witness (the witness chain carries observed gammas, so the
fallback is never consulted). -/
def bsg_zero : ℚ → ℚ → ℚ → ℚ → ℚ := fun _ _ _ _ => 0

/-- The spec's end-to-end chain: a call (oi 1000) and a put (oi 800), both
at strike 600 with observed gamma 0.01, spot 605. -/
def gex_witness_df : List OptRecord :=
  [{ strike := 600, isCall := true, expiration := 30, dte := 30, T := 30 / 365,
     oi := 1000, volume := 0, iv := 1 / 5, gamma := 1 / 100, bid := 0, ask := 0 },
   { strike := 600, isCall := false, expiration := 30, dte := 30, T := 30 / 365,
     oi := 800, volume := 0, iv := 1 / 5, gamma := 1 / 100, bid := 0, ask := 0 }]

/-- A strike table with two sign changes, used by the gamma-flip witness. -/
def rows_w1 : List StrikeRow :=
  [{ strike := 0, callGex := 0, putGex := 0, netGex := 1, totalOi := 0, totalVolume := 0 },
   { strike := 1, callGex := 0, putGex := 0, netGex := -1, totalOi := 0, totalVolume := 0 },
   { strike := 2, callGex := 0, putGex := 0, netGex := 1, totalOi := 0, totalVolume := 0 }]

/-- A strike table with a single sign change between strikes 0 and 1 with
net values -1 and 2. -/
def rows_c1 : List StrikeRow :=
  [{ strike := 0, callGex := 0, putGex := 0, netGex := -1, totalOi := 0, totalVolume := 0 },
   { strike := 1, callGex := 0, putGex := 0, netGex := 2, totalOi := 0, totalVolume := 0 }]

deriving instance DecidableEq for Except

/-! ## Theorems -/

/-- C2: evaluating the clustering pass at the spec's end-to-end example: the
two observations (459.27, 500, 10) and (459.94, 300, 8) are 0.67 apart,
which is within 0.15% of the running cluster centre 459.27
(0.67 / 459.27 ≈ 0.146% < 0.15%), so `_cluster_dp_levels` merges them into a
single zone at 459.52 — contradicting the claim, the spec and the
function's own docstring, which all require two separate zones. -/
theorem cluster_dp_levels_c2_eval :
    |(459.94 : ℚ) - 459.27| / 459.27 < (3 / 20) / 100 ∧
    cluster_dp_levels
        [{ price := 459.27, volume := 500, trades := 10 },
         { price := 459.94, volume := 300, trades := 8 }] (3 / 20)
      = some [{ price := 459.52, volume := 800, trades := 18, numLevels := 2 }] := by
  norm_num [cluster_dp_levels, gather, merge_zone, round2, pyRound,
    List.insertionSort, List.orderedInsert, abs_of_nonneg, abs_of_neg]

/-- C9: evaluating `detect_accumulation` at an archive whose prints carry
zero share counts: the second trade joins the first trade's cluster
(distance 0.1% ≤ 0.3%) and the centroid update divides by the total share
count 0, so the Python code raises an uncaught `ZeroDivisionError`
(modelled by `none`) instead of returning a result. -/
theorem detect_accumulation_zero_shares_fault :
    detect_accumulation 5 7
        [(5, [{ price := 100, shares := 0, side := "?" },
              { price := 100.1, shares := 0, side := "?" }])] = none := by
  norm_num [detect_accumulation, build_clusters, place_trade, trades_of, sort_trades,
    List.insertionSort, List.orderedInsert, abs_of_nonneg, abs_of_neg]

/-- C1 counterexample: on the table with the single adjacent sign change
(S1, v1) = (0, -1), (S2, v2) = (1, 2), the claimed value
S1 + |v1|/(|v1|+|v2|) × (S2-S1) is 1/3, but `find_key_levels` stores
`round(gamma_flip, 2)`, so it returns 0.33 ≠ 1/3. -/
theorem find_gamma_flip_rounding_cex :
    crossings rows_c1 = [1 / 3] ∧
    (1 / 3 : ℚ) = 0 + |(-1 : ℚ)| / (|(-1 : ℚ)| + |(2 : ℚ)|) * (1 - 0) ∧
    find_gamma_flip (1 / 2) rows_c1 = some (33 / 100) ∧
    (33 / 100 : ℚ) ≠ 1 / 3 := by
  norm_num [crossings, rows_c1, find_gamma_flip, sort_by_strike, adj_crossings,
    flip_scan, flip_step, round2, pyRound,
    List.insertionSort, List.orderedInsert, abs_of_nonneg, abs_of_neg]

/-- C4 counterexample: `mem20` holds 20 active levels; with no current price
and one fresh qualifying zone, the level at price 100 is neither expired nor
hit, yet it is absent from the returned active set — the top-20 volume
truncation drops it after the new zone is added. -/
theorem update_levels_cap_cex :
    lvl_c4 ∈ mem20 ∧ isExpired 0 lvl_c4 = false ∧ isHit none lvl_c4 = false ∧
    ∀ l ∈ update_levels 0 none mem20 [zone_c4], l.price ≠ 100 := by
  norm_num [update_levels, filter_existing, add_phase, add_step, update_first,
    sort_zones_desc, sort_levels_desc, mk_test_level, mem20, lvl_c4, zone_c4,
    isExpired, isHit, round2, pyRound, HIT_TOLERANCE, List.range_succ,
    List.insertionSort, List.orderedInsert, abs_of_nonneg, abs_of_neg]

/-- C5 counterexample: a qualifying zone (volume 300000) recurs at the
stored price 100 whose stored volume is larger (500000) on day 5: the stored
volume stays at the maximum and `seen_count` is incremented, but the
last-seen date is NOT refreshed (it stays 0 instead of 5), because the code
refreshes `last_seen` only when the new volume is strictly larger. -/
theorem update_levels_last_seen_cex :
    (250000 : ℤ) ≤ 300000 ∧
    update_levels 5 (some 200) [mk_test_level 100 500000]
        [{ strike := 100, volume := 300000, trades := 7, tag := "DP Level" }]
      = [{ price := 100, volume := 500000, trades := 0, tag := "DP Level",
           added := 0, lastSeen := 0, seenCount := 2 }] ∧
    ∀ l ∈ update_levels 5 (some 200) [mk_test_level 100 500000]
        [{ strike := 100, volume := 300000, trades := 7, tag := "DP Level" }],
      l.lastSeen ≠ 5 := by
  norm_num [update_levels, filter_existing, add_phase, add_step, update_first,
    sort_zones_desc, sort_levels_desc, mk_test_level, round2, pyRound,
    HIT_TOLERANCE, List.insertionSort, List.orderedInsert, abs_of_nonneg, abs_of_neg]

/-- C7 counterexample: clustering `lvls_c7` yields the two zones `zs_c7`
(their raw prices are 0.15457 apart, just over tolerance), but the zone
prices are rounded to 103.00 and 103.15, which are within tolerance of each
other, so re-running the pass on its own output merges them into a single
zone — the clustering pass is not idempotent. -/
theorem cluster_idempotence_cex :
    cluster_dp_levels lvls_c7 (3 / 20) = some zs_c7 ∧
    cluster_dp_levels (zs_c7.map zone_to_level) (3 / 20)
      = some [{ price := 103.06, volume := 800, trades := 5, numLevels := 2 }] ∧
    ([{ price := 103.06, volume := 800, trades := 5, numLevels := 2 }] : List Zone)
      ≠ zs_c7 := by
  refine ⟨?_, ?_, ?_⟩ <;>
    norm_num [cluster_dp_levels, gather, merge_zone, zone_to_level, lvls_c7, zs_c7,
      round2, pyRound, List.insertionSort, List.orderedInsert, abs_of_nonneg, abs_of_neg]

/-- C10 counterexample: with current price `some 0` the hit check is skipped,
yet the non-expired stored level at price 300 of the 21-level memory `mem21`
is still removed by the cycle — the top-20 volume truncation drops it — so
age-based expiry is not the only removal with a null/zero price, and not
every non-expired level is retained. -/
theorem update_levels_no_price_cex :
    lvl_c10 ∈ mem21 ∧ isExpired 0 lvl_c10 = false ∧
    ∀ l ∈ update_levels 0 (some 0) mem21 [], l.price ≠ 300 := by
  norm_num [update_levels, filter_existing, add_phase, add_step, update_first,
    sort_zones_desc, sort_levels_desc, mk_test_level, mem21, lvl_c10,
    isExpired, isHit, round2, pyRound, HIT_TOLERANCE, List.range_succ,
    List.insertionSort, List.orderedInsert, abs_of_nonneg, abs_of_neg]

/-- C6 counterexample: `arch_c6` yields six clusters, each active on 2
distinct days with total volume at least 100000; the weakest one `c_c6`
(price 100, exactly 100000 shares) qualifies, yet its signal is missing from
the output because `detect_accumulation` truncates to the top 5 by strength. -/
theorem detect_accumulation_top5_cex :
    build_clusters (sort_trades (trades_of 2 7 arch_c6)) = some cs_c6 ∧
    c_c6 ∈ cs_c6 ∧ mk_signal c_c6 = some s_c6 ∧
    detect_accumulation 2 7 arch_c6 = some out_c6 ∧ s_c6 ∉ out_c6 := by
  norm_num [detect_accumulation, build_clusters, place_trade, trades_of, sort_trades,
    sort_signals, mk_signal, arch_c6, day_c6, cs_c6, c_c6, s_c6, out_c6,
    round2, pyRound, List.insertionSort, List.orderedInsert, List.dedup,
    abs_of_nonneg, abs_of_neg]
  simp

/-- C8 counterexample: a raw record with an unparseable instrument
identifier and no volatility signal satisfies "implied volatility ≤ 0 and no
positive bid/ask quote", yet it is rejected as `no_symbol`, not as missing
volatility — the claimed equivalence fails for records that an earlier
filter already rejects. -/
theorem parse_no_iv_cex :
    (0 : ℚ) < 100 ∧
    raw_no_symbol.iv.getD 0 ≤ 0 ∧ raw_no_symbol.bid.getD 0 ≤ 0 ∧
    raw_no_symbol.ask.getD 0 ≤ 0 ∧
    parse_one_option 0 100 raw_no_symbol = .error .noSymbol ∧
    parse_one_option 0 100 raw_no_symbol ≠ .error .noIv := by
  refine ⟨by norm_num, by norm_num [raw_no_symbol], by norm_num [raw_no_symbol],
    by norm_num [raw_no_symbol], by norm_num [parse_one_option, raw_no_symbol], ?_⟩
  intro h
  rw [show parse_one_option 0 100 raw_no_symbol = .error .noSymbol from rfl] at h
  exact SkipReason.noConfusion (Except.error.inj h)

/-- Splitting a mapped sum over a boolean partition of a list. -/
theorem sum_map_filter_split {α : Type} (p : α → Bool) (f : α → ℚ) (l : List α) :
    ((l.filter p).map f).sum + ((l.filter fun x => !p x).map f).sum = (l.map f).sum := by
  induction l with
  | nil => simp
  | cons a l ih =>
    by_cases h : p a = true <;>
      simp only [List.filter_cons, h, Bool.not_true, Bool.not_false, if_pos, if_neg,
        Bool.false_eq_true, not_false_iff, List.map_cons, List.sum_cons, ite_true,
        ite_false] <;> linarith [ih]

/-- C3: every row of the per-strike aggregate built by `calculate_gex`
satisfies `net_gex = call_gex + put_gex` exactly, for every Black-Scholes
fallback, every positive spot and every parsed contract set: the net column
sums the dealer exposures of the whole strike group, which splits exactly
into its call part and its put part. -/
theorem calculate_gex_net_split (bsg : ℚ → ℚ → ℚ → ℚ → ℚ) (spot : ℚ)
    (df : List OptRecord) (_hspot : 0 < spot) :
    ∀ row ∈ calculate_gex bsg spot df, row.netGex = row.callGex + row.putGex := by
  intro row hrow
  unfold calculate_gex at hrow
  simp only [List.mem_map] at hrow
  obtain ⟨s, hs, rfl⟩ := hrow
  exact (sum_map_filter_split (fun r => r.isCall) (dealer_gex bsg spot) _).symm

/-- C3 witness: the spec's end-to-end chain (call with oi 1000, put with
oi 800, both at strike 600, spot 605) satisfies the row invariant. -/
theorem calculate_gex_net_split_witness :
    (0 : ℚ) < 605 ∧
    ∀ row ∈ calculate_gex bsg_zero 605 gex_witness_df,
      row.netGex = row.callGex + row.putGex :=
  ⟨by norm_num, calculate_gex_net_split bsg_zero 605 gex_witness_df (by norm_num)⟩

/-- The `no_iv` rejection counter of `parse_options` counts exactly the
records its loop body rejects for missing volatility. -/
theorem parse_options_noIv_count (now : ℤ) (spot : ℚ) (opts : List RawOption) :
    (parse_options now spot opts).2.noIv
      = opts.countP fun o => decide (parse_one_option now spot o = .error .noIv) := by
  induction opts with
  | nil => rfl
  | cons o os ih =>
    simp only [parse_options, List.countP_cons]
    cases h : parse_one_option now spot o with
    | ok r => simp [h, ih]
    | error reason => cases reason <;> simp [h, bump, ih]

/-- C8 (amended): among records that pass the identifier, strike, range and
expiry checks with a positive spot, the loop body of `parse_options` rejects
a record for missing volatility exactly when its implied volatility is ≤ 0
and it has neither a positive bid nor a positive ask; when the implied
volatility is ≤ 0 but a positive quote exists, the record is kept with the
default volatility 0.20; and the `no_iv` counter counts exactly the records
rejected for that reason. -/
theorem parse_no_iv_spec (now : ℤ) (spot : ℚ) (o : RawOption) (e : ℤ) (isC : Bool)
    (k : ℚ) (_hspot : 0 < spot) (hsym : o.symbol = some (e, isC, k)) (hk : 0 < k)
    (hrange : |k - spot| / spot ≤ 1 / 5) (hexp : now ≤ e) :
    (parse_one_option now spot o = .error .noIv ↔
      o.iv.getD 0 ≤ 0 ∧ o.bid.getD 0 ≤ 0 ∧ o.ask.getD 0 ≤ 0) ∧
    (o.iv.getD 0 ≤ 0 → (0 < o.bid.getD 0 ∨ 0 < o.ask.getD 0) →
      ∃ rec, parse_one_option now spot o = .ok rec ∧ rec.iv = 1 / 5) ∧
    ∀ opts, (parse_options now spot opts).2.noIv
      = opts.countP fun o' => decide (parse_one_option now spot o' = .error .noIv) := by
  have h1 : ¬ k ≤ 0 := not_le.mpr hk
  have h2 : ¬ (1 / 5 < |k - spot| / spot) := not_lt.mpr hrange
  have h3 : ¬ (e - now < 0) := by omega
  refine ⟨?_, ?_, parse_options_noIv_count now spot⟩
  · unfold parse_one_option
    rw [hsym]
    simp only [h1, h2, h3, if_neg, if_false, ite_false]
    by_cases hiv : o.iv.getD 0 ≤ 0
    · by_cases hq : o.bid.getD 0 ≤ 0 ∧ o.ask.getD 0 ≤ 0
      · simp [hiv, hq]
      · simp [hiv, hq]
    · simp [hiv]
  · intro hiv hq
    have hq' : ¬ (o.bid.getD 0 ≤ 0 ∧ o.ask.getD 0 ≤ 0) := by
      rcases hq with h | h
      · exact fun hc => absurd hc.1 (not_le.mpr h)
      · exact fun hc => absurd hc.2 (not_le.mpr h)
    unfold parse_one_option
    rw [hsym]
    simp only [h1, h2, h3, if_neg, if_false, ite_false, hiv, if_true, ite_true, hq']
    exact ⟨_, rfl, rfl⟩

/-- C8 witness: `raw_w8` (valid symbol, iv 0, positive bid) at spot 100 on
day 0 is kept with the default volatility. -/
theorem parse_no_iv_spec_witness :
    (0 : ℚ) < 100 ∧
    (∃ rec, parse_one_option 0 100 raw_w8 = .ok rec ∧ rec.iv = 1 / 5) :=
  ⟨by norm_num,
   (parse_no_iv_spec 0 100 raw_w8 10 true 100 (by norm_num) rfl (by norm_num)
      (by norm_num) (by norm_num)).2.1 (by norm_num [raw_w8])
      (Or.inl (by norm_num [raw_w8]))⟩
/-- The hit test against a present price is the decision of its conjunction. -/
theorem isHit_some (p : ℚ) (l : StickyLevel) :
    isHit (some p) l = decide (0 < p ∧ |p - l.price| / p < HIT_TOLERANCE) := by
  by_cases h1 : 0 < p <;> by_cases h2 : |p - l.price| / p < HIT_TOLERANCE <;>
    simp [isHit, h1, h2]

/-- The expiry-and-hit pass of `update_levels` keeps exactly the stored
levels that are neither expired nor hit, in order. -/
theorem filter_existing_eq (now : ℤ) (cp : Option ℚ) (ls : List StickyLevel) :
    filter_existing now cp ls
      = ls.filter fun l => !(isExpired now l) && !(isHit cp l) := by
  induction ls with
  | nil => rfl
  | cons l ls ih =>
    by_cases hexp : 14 < now - l.added
    · simp [filter_existing, hexp, isExpired, ih, List.filter_cons]
    · cases cp with
      | none => simp [filter_existing, hexp, isExpired, isHit, ih, List.filter_cons]
      | some p =>
        by_cases hhit : 0 < p ∧ |p - l.price| / p < HIT_TOLERANCE
        · simp [filter_existing, hexp, hhit, isExpired, isHit_some, ih, List.filter_cons]
        · have hd : p ≤ 0 ∨ HIT_TOLERANCE ≤ |p - l.price| / p := by
            rcases not_and_or.mp hhit with h | h
            · exact Or.inl (not_lt.mp h)
            · exact Or.inr (not_lt.mp h)
          simp [filter_existing, hexp, hhit, isExpired, isHit_some, ih,
            List.filter_cons, hd]

/-- The matching update leaves the stored prices unchanged, positionally. -/
theorem update_first_map_price (now : ℤ) (z : NewZone) (xs : List StickyLevel) :
    (update_first now z xs).map (fun a => a.price) = xs.map fun a => a.price := by
  induction xs with
  | nil => rfl
  | cons a rest ih =>
    by_cases h : round2 a.price = round2 z.strike
    · by_cases hv : a.volume < z.volume <;> simp [update_first, h, hv]
    · simp [update_first, h, ih]

/-- The matching update leaves the stored rounded prices unchanged. -/
theorem update_first_map_round (now : ℤ) (z : NewZone) (xs : List StickyLevel) :
    (update_first now z xs).map (fun a => round2 a.price)
      = xs.map fun a => round2 a.price := by
  have h := update_first_map_price now z xs
  have h2 : ∀ ys : List StickyLevel,
      ys.map (fun a => round2 a.price) = (ys.map fun a => a.price).map round2 := by
    intro ys; rw [List.map_map]; rfl
  rw [h2, h2, h]

/-- Every level of the state keeps a same-priced representative through the
candidate fold of `update_levels`. -/
theorem add_fold_price (now : ℤ) (zs : List NewZone) :
    ∀ (st : List StickyLevel × ℕ) (l : StickyLevel), l ∈ st.1 →
      ∃ l', l' ∈ (zs.foldl (add_step now) st).1 ∧ l'.price = l.price := by
  induction zs with
  | nil => exact fun st l hl => ⟨l, hl, rfl⟩
  | cons z zs ih =>
    intro st l hl
    have hstep : ∃ l'', l'' ∈ (add_step now st z).1 ∧ l''.price = l.price := by
      unfold add_step
      split
      · exact ⟨l, hl, rfl⟩
      · split
        · have : l.price ∈ (update_first now z st.1).map fun a => a.price := by
            rw [update_first_map_price]
            exact List.mem_map.mpr ⟨l, hl, rfl⟩
          obtain ⟨l'', hl'', hp⟩ := List.mem_map.mp this
          exact ⟨l'', hl'', hp⟩
        · split
          · exact ⟨l, hl, rfl⟩
          · exact ⟨l, List.mem_append_left _ hl, rfl⟩
    obtain ⟨l'', h1, h2⟩ := hstep
    obtain ⟨l', h3, h4⟩ := ih (add_step now st z) l'' h1
    exact ⟨l', by simpa [List.foldl_cons] using h3, h4.trans h2⟩

/-- When the level list after the candidate fold fits under the 20-level cap,
the final sort-and-truncate step of `update_levels` keeps every level. -/
theorem mem_update_levels_of_mem_phase (now : ℤ) (cp : Option ℚ)
    (existing : List StickyLevel) (zones : List NewZone) (l : StickyLevel)
    (hlen : (add_phase now (filter_existing now cp existing) zones).1.length ≤ 20)
    (hl : l ∈ (add_phase now (filter_existing now cp existing) zones).1) :
    l ∈ update_levels now cp existing zones := by
  unfold update_levels
  rw [List.take_of_length_le]
  · exact ((List.perm_insertionSort _ _).mem_iff).mpr hl
  · rw [sort_levels_desc, List.length_insertionSort]
    exact hlen
/-- C4 (amended): on every update cycle, the expiry-and-hit pass drops
exactly the expired levels and then the levels within hit-tolerance of the
current price; a stored level that is neither expired nor hit keeps a level
at its price in the returned active set provided the level count after the
add phase stays within the 20-level retention cap (otherwise the top-20
volume truncation may still drop it); in particular a memory seeded with a
level at 601.07 updated at current price 601.08 no longer contains it. -/
theorem update_levels_removal_spec (now : ℤ) (cp : Option ℚ)
    (existing : List StickyLevel) (zones : List NewZone) :
    filter_existing now cp existing
      = existing.filter (fun l => !(isExpired now l) && !(isHit cp l)) ∧
    ((add_phase now (filter_existing now cp existing) zones).1.length ≤ 20 →
      ∀ l ∈ filter_existing now cp existing,
        ∃ l', l' ∈ update_levels now cp existing zones ∧ l'.price = l.price) ∧
    update_levels 0 (some (60108 / 100))
        [{ price := 60107 / 100, volume := 1200000, trades := 0, tag := "Block Trade",
           added := 0, lastSeen := 0, seenCount := 1 }] [] = [] := by
  refine ⟨filter_existing_eq now cp existing, ?_, ?_⟩
  · intro hlen l hl
    obtain ⟨l', hl', hp⟩ := add_fold_price now (sort_zones_desc zones)
      (filter_existing now cp existing, 0) l hl
    exact ⟨l', mem_update_levels_of_mem_phase now cp existing zones l' hlen hl', hp⟩
  · norm_num [update_levels, filter_existing, add_phase, add_step, sort_zones_desc,
      sort_levels_desc, HIT_TOLERANCE, List.insertionSort, abs_of_nonneg, abs_of_neg]

/-- C4 witness: a one-level memory (price 10, volume 400000) at current
price 50 fits under the cap, and the level is retained at its price. -/
theorem update_levels_removal_spec_witness :
    (add_phase 1 (filter_existing 1 (some 50) mem_w4) []).1.length ≤ 20 ∧
    ∀ l ∈ filter_existing 1 (some 50) mem_w4,
      ∃ l', l' ∈ update_levels 1 (some 50) mem_w4 [] ∧ l'.price = l.price :=
  ⟨by norm_num [add_phase, add_step, sort_zones_desc, filter_existing, mem_w4,
      mk_test_level, HIT_TOLERANCE, List.insertionSort, abs_of_nonneg, abs_of_neg],
   (update_levels_removal_spec 1 (some 50) mem_w4 []).2.1
     (by norm_num [add_phase, add_step, sort_zones_desc, filter_existing, mem_w4,
        mk_test_level, HIT_TOLERANCE, List.insertionSort, abs_of_nonneg, abs_of_neg])⟩
/-- C10 (amended): when the current price is `None` or 0, the hit check is
skipped entirely, so the expiry-and-hit pass keeps exactly the non-expired
levels regardless of any distance; a non-expired stored level keeps a level
at its price in the returned active set provided the level count after the
add phase stays within the 20-level cap (the top-20 volume truncation can
still drop it otherwise). -/
theorem update_levels_no_price_spec (now : ℤ) (cp : Option ℚ)
    (existing : List StickyLevel) (zones : List NewZone)
    (hcp : cp = none ∨ cp = some 0) :
    filter_existing now cp existing
      = existing.filter (fun l => !(isExpired now l)) ∧
    ((add_phase now (filter_existing now cp existing) zones).1.length ≤ 20 →
      ∀ l ∈ existing, isExpired now l = false →
        ∃ l', l' ∈ update_levels now cp existing zones ∧ l'.price = l.price) := by
  have hhit : ∀ l, isHit cp l = false := by
    rcases hcp with h | h <;> subst h <;> intro l <;> simp [isHit]
  have hfe : filter_existing now cp existing
      = existing.filter (fun l => !(isExpired now l)) := by
    rw [filter_existing_eq]
    simp only [hhit, Bool.not_false, Bool.and_true]
  refine ⟨hfe, ?_⟩
  intro hlen l hl hexp
  have hmem : l ∈ filter_existing now cp existing := by
    rw [hfe]
    exact List.mem_filter.mpr ⟨hl, by simp [hexp]⟩
  obtain ⟨l', hl', hp⟩ := add_fold_price now (sort_zones_desc zones)
    (filter_existing now cp existing, 0) l hmem
  exact ⟨l', mem_update_levels_of_mem_phase now cp existing zones l' hlen hl', hp⟩

/-- C10 witness: a one-level memory updated with `None` price keeps exactly
its non-expired level. -/
theorem update_levels_no_price_spec_witness :
    filter_existing 2 none mem_w10
      = mem_w10.filter (fun l => !(isExpired 2 l)) :=
  (update_levels_no_price_spec 2 none mem_w10 [] (Or.inl rfl)).1
/-- Updating the first match: with no earlier match in `pre` and a match at
`a`, the matching update rewrites exactly `a` in place. -/
theorem update_first_append (now : ℤ) (z : NewZone) (pre post : List StickyLevel)
    (a : StickyLevel) (hpre : ∀ b ∈ pre, round2 b.price ≠ round2 z.strike)
    (ha : round2 a.price = round2 z.strike) :
    update_first now z (pre ++ a :: post)
      = pre ++ (if a.volume < z.volume then
          { a with volume := z.volume, lastSeen := now, seenCount := a.seenCount + 1 }
        else { a with seenCount := a.seenCount + 1 }) :: post := by
  induction pre with
  | nil => simp [update_first, ha]
  | cons b pre ih =>
    have hb : round2 b.price ≠ round2 z.strike := hpre b (List.mem_cons_self _ _)
    simp only [List.cons_append, update_first, if_neg hb, List.append_eq]
    rw [ih fun x hx => hpre x (List.mem_cons_of_mem _ hx)]

/-- One candidate step preserves pairwise-distinct rounded prices. -/
theorem add_step_pairwise (now : ℤ) (st : List StickyLevel × ℕ) (z : NewZone)
    (h : st.1.Pairwise fun x y => round2 x.price ≠ round2 y.price) :
    (add_step now st z).1.Pairwise fun x y => round2 x.price ≠ round2 y.price := by
  unfold add_step
  split_ifs with hv hmem hbud
  · exact h
  · have h' : ((update_first now z st.1).map fun a => round2 a.price).Pairwise (· ≠ ·) := by
      rw [update_first_map_round]
      exact List.pairwise_map.mpr h
    exact List.pairwise_map.mp h'
  · exact h
  · refine List.pairwise_append.mpr ⟨h, List.pairwise_singleton _ _, ?_⟩
    intro x hx y hy
    simp only [List.mem_singleton] at hy
    subst hy
    intro hcontra
    exact hmem (List.mem_map.mpr ⟨x, hx, hcontra⟩)

/-- The candidate fold preserves pairwise-distinct rounded prices. -/
theorem add_fold_pairwise (now : ℤ) (zs : List NewZone) :
    ∀ st : List StickyLevel × ℕ,
      st.1.Pairwise (fun x y => round2 x.price ≠ round2 y.price) →
      ((zs.foldl (add_step now) st)).1.Pairwise
        fun x y => round2 x.price ≠ round2 y.price := by
  induction zs with
  | nil => exact fun st h => h
  | cons z zs ih =>
    intro st h
    simpa [List.foldl_cons] using ih (add_step now st z) (add_step_pairwise now st z h)
/-- C5 (amended): when a qualifying zone matches an existing active level
(equal price after 2-decimal rounding, first match at `a`), `update_levels`
updates that level in place — volume to the maximum of old and new,
`seen_count` incremented, last-seen date refreshed only when the new volume
strictly exceeds the stored one — creates no additional entry (the level
count is unchanged), and pairwise-distinct rounded prices are preserved on
every cycle, so a second entry for the same rounded price never appears. -/
theorem update_levels_match_spec (now : ℤ) (cp : Option ℚ)
    (existing : List StickyLevel) (z : NewZone) (pre post : List StickyLevel)
    (a : StickyLevel)
    (hact : filter_existing now cp existing = pre ++ a :: post)
    (hpre : ∀ b ∈ pre, round2 b.price ≠ round2 z.strike)
    (ha : round2 a.price = round2 z.strike)
    (hvol : 250000 ≤ z.volume)
    (hlen : (pre ++ a :: post).length ≤ 20) :
    (∃ a', a' ∈ update_levels now cp existing [z] ∧ a'.price = a.price ∧
       a'.volume = max a.volume z.volume ∧ a'.seenCount = a.seenCount + 1 ∧
       a'.lastSeen = (if a.volume < z.volume then now else a.lastSeen)) ∧
    (update_levels now cp existing [z]).length = (pre ++ a :: post).length ∧
    ∀ zones, (filter_existing now cp existing).Pairwise
        (fun x y => round2 x.price ≠ round2 y.price) →
      (update_levels now cp existing zones).Pairwise
        fun x y => round2 x.price ≠ round2 y.price := by
  have hmem : round2 z.strike ∈ (pre ++ a :: post).map fun b => round2 b.price :=
    List.mem_map.mpr ⟨a, List.mem_append.mpr (Or.inr (List.mem_cons_self _ _)), ha⟩
  have hphase : add_phase now (filter_existing now cp existing) [z]
      = (pre ++ (if a.volume < z.volume then
          { a with volume := z.volume, lastSeen := now, seenCount := a.seenCount + 1 }
        else { a with seenCount := a.seenCount + 1 }) :: post, 0) := by
    unfold add_phase
    have h1 : sort_zones_desc [z] = [z] := rfl
    rw [h1, hact]
    show add_step now (pre ++ a :: post, 0) z = _
    unfold add_step
    rw [if_neg (not_lt.mpr hvol), if_pos hmem,
      update_first_append now z pre post a hpre ha]
  have hlen' : (add_phase now (filter_existing now cp existing) [z]).1.length ≤ 20 := by
    rw [hphase]
    simpa using hlen
  refine ⟨?_, ?_, ?_⟩
  · refine ⟨(if a.volume < z.volume then
        { a with volume := z.volume, lastSeen := now, seenCount := a.seenCount + 1 }
      else { a with seenCount := a.seenCount + 1 }), ?_, ?_, ?_, ?_, ?_⟩
    · apply mem_update_levels_of_mem_phase now cp existing [z] _ hlen'
      rw [hphase]
      exact List.mem_append.mpr (Or.inr (List.mem_cons_self _ _))
    · by_cases hv : a.volume < z.volume <;> simp [hv]
    · by_cases hv : a.volume < z.volume
      · simp [hv, max_eq_right (le_of_lt hv)]
      · simp [hv, max_eq_left (not_lt.mp hv)]
    · by_cases hv : a.volume < z.volume <;> simp [hv]
    · by_cases hv : a.volume < z.volume <;> simp [hv]
  · unfold update_levels
    rw [List.take_of_length_le]
    · rw [sort_levels_desc, List.length_insertionSort, hphase]
      simp
    · rw [sort_levels_desc, List.length_insertionSort]
      exact hlen'
  · intro zones hpw
    unfold update_levels
    apply List.Pairwise.sublist (List.take_sublist _ _)
    rw [sort_levels_desc]
    exact (List.Perm.pairwise_iff (fun h => Ne.symm h)
        (List.perm_insertionSort _ _)).mpr
      (add_fold_pairwise now (sort_zones_desc zones) _ hpw)

/-- C5 witness: the one-level memory `mem_w5` (price 50, volume 260000) and
the recurring zone `zone_w5` (price 50, volume 270000): the level is updated
in place to the larger volume with refreshed last-seen and bumped
seen_count, and no second entry appears. -/
theorem update_levels_match_spec_witness :
    (∃ a', a' ∈ update_levels 3 (some 60) mem_w5 [zone_w5] ∧ a'.price = lvl_w5.price ∧
       a'.volume = max lvl_w5.volume zone_w5.volume ∧
       a'.seenCount = lvl_w5.seenCount + 1 ∧
       a'.lastSeen = (if lvl_w5.volume < zone_w5.volume then 3 else lvl_w5.lastSeen)) ∧
    (update_levels 3 (some 60) mem_w5 [zone_w5]).length
      = ([] ++ lvl_w5 :: []).length :=
  ⟨(update_levels_match_spec 3 (some 60) mem_w5 zone_w5 [] [] lvl_w5
      (by norm_num [filter_existing, mem_w5, lvl_w5, mk_test_level, HIT_TOLERANCE,
        abs_of_nonneg, abs_of_neg])
      (by simp) rfl (by norm_num [zone_w5]) (by simp)).1,
   (update_levels_match_spec 3 (some 60) mem_w5 zone_w5 [] [] lvl_w5
      (by norm_num [filter_existing, mem_w5, lvl_w5, mk_test_level, HIT_TOLERANCE,
        abs_of_nonneg, abs_of_neg])
      (by simp) rfl (by norm_num [zone_w5]) (by simp)).2.1⟩

/-- The grouping loop partitions its input: the flattened groups are the
closed groups, the running cluster and the unprocessed levels, in order. -/
theorem gather_flatten (tol : ℚ) :
    ∀ (rest current : List DpLevel) (acc : List (List DpLevel))
      (gs : List (List DpLevel)), gather tol rest current acc = some gs →
      gs.flatten = acc.flatten ++ current ++ rest := by
  intro rest
  induction rest with
  | nil =>
    intro current acc gs h
    simp only [gather, Option.some.injEq] at h
    subst h
    simp
  | cons l rest ih =>
    intro current acc gs h
    simp only [gather] at h
    split at h
    · exact absurd h (by simp)
    · split at h
      · rw [ih _ _ _ h]
        simp
      · rw [ih _ _ _ h]
        simp
/-- Every group the grouping loop closes is nonempty. -/
theorem gather_ne_nil (tol : ℚ) :
    ∀ (rest current : List DpLevel) (acc : List (List DpLevel))
      (gs : List (List DpLevel)), current ≠ [] → (∀ g ∈ acc, g ≠ []) →
      gather tol rest current acc = some gs → ∀ g ∈ gs, g ≠ [] := by
  intro rest
  induction rest with
  | nil =>
    intro current acc gs hc hacc h
    simp only [gather, Option.some.injEq] at h
    subst h
    intro g hg
    rcases List.mem_append.mp hg with h | h
    · exact hacc g h
    · simp only [List.mem_singleton] at h
      exact h ▸ hc
  | cons l rest ih =>
    intro current acc gs hc hacc h
    simp only [gather] at h
    split at h
    · exact absurd h (by simp)
    · split at h
      · exact ih _ _ _ (by simp) hacc h
      · refine ih _ _ _ (by simp) ?_ h
        intro g hg
        rcases List.mem_append.mp hg with h' | h'
        · exact hacc g h'
        · simp only [List.mem_singleton] at h'
          exact h' ▸ hc

/-- A list of nonempty lists is no longer than its flattening. -/
theorem length_le_flatten {α : Type} :
    ∀ gs : List (List α), (∀ g ∈ gs, g ≠ []) → gs.length ≤ gs.flatten.length := by
  intro gs
  induction gs with
  | nil => simp
  | cons g gs ih =>
    intro h
    have hg : 0 < g.length :=
      List.length_pos.mpr (h g (List.mem_cons_self _ _))
    have := ih fun x hx => h x (List.mem_cons_of_mem _ hx)
    simp only [List.length_cons, List.flatten_cons, List.length_append]
    omega

/-- Summing a map over a flattening equals summing the per-group sums. -/
theorem sum_map_flatten {α : Type} (f : α → ℚ) :
    ∀ gs : List (List α),
      ((gs.flatten).map f).sum = (gs.map fun g => (g.map f).sum).sum := by
  intro gs
  induction gs with
  | nil => rfl
  | cons g gs ih => simp [ih, Function.comp_def]

/-- The clustering pass never produces more zones than input levels and
conserves total volume. -/
theorem cluster_dp_levels_count_vol (levels : List DpLevel) (tol : ℚ)
    (zs : List Zone) (h : cluster_dp_levels levels tol = some zs) :
    zs.length ≤ levels.length ∧
    (zs.map fun z => z.volume).sum = (levels.map fun l => l.volume).sum := by
  unfold cluster_dp_levels at h
  have hperm := List.perm_insertionSort (fun a b : DpLevel => a.price ≤ b.price) levels
  cases hs : levels.insertionSort (fun a b => a.price ≤ b.price) with
  | nil =>
    rw [hs] at h hperm
    have hlev : levels = [] := hperm.symm.eq_nil
    simp only [Option.some.injEq] at h
    subst h
    simp [hlev]
  | cons s rest =>
    rw [hs] at h hperm
    replace h : Option.map (fun gs => List.map merge_zone gs) (gather tol rest [s] [])
        = some zs := h
    cases hg : gather tol rest [s] [] with
    | none => rw [hg] at h; exact absurd h (by simp)
    | some gs =>
      rw [hg] at h
      simp only [Option.map_some', Option.some.injEq] at h
      subst h
      have hflat : gs.flatten = s :: rest := by
        have := gather_flatten tol rest [s] [] gs hg
        simpa using this
      have hne := gather_ne_nil tol rest [s] [] gs (by simp) (by simp) hg
      constructor
      · calc (gs.map merge_zone).length = gs.length := List.length_map _ _
          _ ≤ gs.flatten.length := length_le_flatten gs hne
          _ = (s :: rest).length := by rw [hflat]
          _ = levels.length := hperm.length_eq
      · have h1 : ((gs.map merge_zone).map fun z => z.volume).sum
            = (gs.map fun g => (g.map fun l => l.volume).sum).sum := by
          rw [List.map_map]
          congr 1
        rw [h1, ← sum_map_flatten, hflat]
        exact (hperm.map fun l => l.volume).sum_eq

/-- C7 (amended): the clustering pass is not idempotent (re-clustering its
own output can merge zones whose rounded centroids fall within tolerance —
see the counterexample); what does hold is that re-running the pass on its
own zones never increases the zone count and preserves the total volume. -/
theorem cluster_dp_levels_rerun_spec (levels : List DpLevel) (tol : ℚ)
    (zs zs' : List Zone)
    (_h1 : cluster_dp_levels levels tol = some zs)
    (h2 : cluster_dp_levels (zs.map zone_to_level) tol = some zs') :
    zs'.length ≤ zs.length ∧
    (zs'.map fun z => z.volume).sum = (zs.map fun z => z.volume).sum := by
  obtain ⟨hl, hv⟩ := cluster_dp_levels_count_vol _ _ _ h2
  constructor
  · simpa using hl
  · rw [hv, List.map_map]
    congr 1

/-- C7 witness: re-clustering the single zone produced from `lvls_w7`
keeps one zone and its volume. -/
theorem cluster_dp_levels_rerun_spec_witness :
    zs_w7.length ≤ zs_w7.length ∧
    (zs_w7.map fun z => z.volume).sum = (zs_w7.map fun z => z.volume).sum :=
  cluster_dp_levels_rerun_spec lvls_w7 (3 / 20) zs_w7 zs_w7
    (by norm_num [cluster_dp_levels, gather, merge_zone, lvls_w7, zs_w7,
      round2, pyRound, List.insertionSort, List.orderedInsert])
    (by norm_num [cluster_dp_levels, gather, merge_zone, zone_to_level, lvls_w7, zs_w7,
      round2, pyRound, List.insertionSort, List.orderedInsert])
/-- A produced signal always comes from a cluster that passed the two-day
and minimum-volume gate. -/
theorem mk_signal_qualifies (c : AccCluster) (s : AccSignal)
    (h : mk_signal c = some s) : 2 ≤ s.days ∧ 100000 ≤ s.totalVol := by
  simp only [mk_signal] at h
  split at h
  · exact absurd h (by simp)
  · rename_i hcond
    push_neg at hcond
    simp only [Option.some.injEq] at h
    subst h
    exact ⟨hcond.1, hcond.2⟩

/-- C6 (amended): every signal `detect_accumulation` returns comes from a
cluster active on at least 2 distinct days with at least 100000 total shares
(so a single-day cluster never appears, regardless of volume); and every
qualifying cluster's signal appears in the output PROVIDED at most 5
clusters qualify — the output is truncated to the 5 strongest signals. -/
theorem detect_accumulation_spec (now lookback : ℤ)
    (archive : List (ℤ × List RawPrint)) (out : List AccSignal)
    (h : detect_accumulation now lookback archive = some out) :
    (∀ s ∈ out, 2 ≤ s.days ∧ 100000 ≤ s.totalVol) ∧
    ∀ clusters,
      build_clusters (sort_trades (trades_of now lookback archive)) = some clusters →
      (clusters.filterMap mk_signal).length ≤ 5 →
      ∀ c ∈ clusters, ∀ s, mk_signal c = some s → s ∈ out := by
  unfold detect_accumulation at h
  cases hb : build_clusters (sort_trades (trades_of now lookback archive)) with
  | none => rw [hb] at h; exact absurd h (by simp)
  | some cls =>
    rw [hb] at h
    simp only [Option.map_some', Option.some.injEq] at h
    subst h
    constructor
    · intro s hs
      have h1 : s ∈ sort_signals (cls.filterMap mk_signal) :=
        (List.take_sublist _ _).subset hs
      simp only [sort_signals] at h1
      have h2 : s ∈ cls.filterMap mk_signal :=
        ((List.perm_insertionSort _ _).mem_iff).mp h1
      obtain ⟨c, _, hcs⟩ := List.mem_filterMap.mp h2
      exact mk_signal_qualifies c s hcs
    · intro clusters hcl hlen c hc s hcs
      have hceq : cls = clusters := Option.some.inj hcl
      subst hceq
      have h2 : s ∈ cls.filterMap mk_signal := List.mem_filterMap.mpr ⟨c, hc, hcs⟩
      have h3 : s ∈ sort_signals (cls.filterMap mk_signal) := by
        simp only [sort_signals]
        exact ((List.perm_insertionSort _ _).mem_iff).mpr h2
      rw [List.take_of_length_le]
      · exact h3
      · simp only [sort_signals]
        rw [List.length_insertionSort]
        exact hlen

/-- C6 witness: the two-day single-cluster archive `arch_w6` qualifies and
its signal is in the output. -/
theorem detect_accumulation_spec_witness :
    detect_accumulation 2 7 arch_w6 = some out_w6 ∧ s_w6 ∈ out_w6 :=
  ⟨by
    norm_num [detect_accumulation, build_clusters, place_trade, trades_of,
      sort_trades, sort_signals, mk_signal, arch_w6, cs_w6, s_w6, out_w6,
      round2, pyRound, List.insertionSort, List.orderedInsert, List.dedup,
      abs_of_nonneg, abs_of_neg]
    simp,
   (detect_accumulation_spec 2 7 arch_w6 out_w6
      (by
        norm_num [detect_accumulation, build_clusters, place_trade, trades_of,
          sort_trades, sort_signals, mk_signal, arch_w6, cs_w6, s_w6, out_w6,
          round2, pyRound, List.insertionSort, List.orderedInsert, List.dedup,
          abs_of_nonneg, abs_of_neg]
        simp)).2 cs_w6
      (by norm_num [build_clusters, place_trade, trades_of, sort_trades, arch_w6,
        cs_w6, List.insertionSort, List.orderedInsert, abs_of_nonneg, abs_of_neg])
      (le_trans (List.length_filterMap_le _ _) (by norm_num [cs_w6]))
      c_w6 (by norm_num [c_w6, cs_w6]) s_w6
      (by norm_num [mk_signal, c_w6, s_w6, List.dedup, round2, pyRound]; simp)⟩
/-- The pairwise scan of `find_key_levels` equals the fold over the list of
interpolated crossings. -/
theorem flip_scan_eq_fold (spot : ℚ) :
    ∀ (l : List StrikeRow) (st : Option (ℚ × ℚ)),
      flip_scan spot l st = flip_fold spot (adj_crossings l) st := by
  intro l
  induction l with
  | nil => intro st; rfl
  | cons p tail ih =>
    intro st
    cases tail with
    | nil => rfl
    | cons q rest =>
      by_cases h : p.netGex * q.netGex < 0
      · simp only [flip_scan, adj_crossings, h, if_true, ite_true, List.cons_append,
          List.nil_append]
        rw [ih]
        simp only [flip_fold, flip_step, h, if_true, ite_true]
      · simp only [flip_scan, adj_crossings, h, if_false, ite_false, List.nil_append]
        rw [ih]
        simp only [flip_step, h, if_false, ite_false]

/-- Folding the crossing candidates from a live best state returns the best
state's crossing or a strictly better member, minimal over all candidates. -/
theorem flip_fold_some_spec (spot : ℚ) :
    ∀ (cs : List ℚ) (fp : ℚ),
      ∃ fp', flip_fold spot cs (some (|fp - spot|, fp)) = some (|fp' - spot|, fp') ∧
        (fp' = fp ∨ fp' ∈ cs) ∧ |fp' - spot| ≤ |fp - spot| ∧
        ∀ c ∈ cs, |fp' - spot| ≤ |c - spot| := by
  intro cs
  induction cs with
  | nil => exact fun fp => ⟨fp, rfl, Or.inl rfl, le_refl _, by simp⟩
  | cons c cs ih =>
    intro fp
    by_cases h : |c - spot| < |fp - spot|
    · obtain ⟨fp', h1, h2, h3, h4⟩ := ih c
      refine ⟨fp', ?_, ?_, le_trans h3 (le_of_lt h), ?_⟩
      · simpa [flip_fold, h] using h1
      · rcases h2 with rfl | hm
        · exact Or.inr (List.mem_cons_self _ _)
        · exact Or.inr (List.mem_cons_of_mem _ hm)
      · intro x hx
        rcases List.mem_cons.mp hx with rfl | hm
        · exact h3
        · exact h4 x hm
    · obtain ⟨fp', h1, h2, h3, h4⟩ := ih fp
      refine ⟨fp', ?_, ?_, h3, ?_⟩
      · simpa [flip_fold, h] using h1
      · rcases h2 with rfl | hm
        · exact Or.inl rfl
        · exact Or.inr (List.mem_cons_of_mem _ hm)
      · intro x hx
        rcases List.mem_cons.mp hx with rfl | hm
        · exact le_trans h3 (not_lt.mp h)
        · exact h4 x hm

/-- Folding a nonempty candidate list from the initial (infinite-distance)
state returns a member with minimal distance to spot. -/
theorem flip_fold_none_spec (spot : ℚ) (c : ℚ) (cs : List ℚ) :
    ∃ fp', flip_fold spot (c :: cs) none = some (|fp' - spot|, fp') ∧
      fp' ∈ c :: cs ∧ ∀ x ∈ c :: cs, |fp' - spot| ≤ |x - spot| := by
  obtain ⟨fp', h1, h2, h3, h4⟩ := flip_fold_some_spec spot cs c
  refine ⟨fp', ?_, ?_, ?_⟩
  · simpa [flip_fold] using h1
  · rcases h2 with rfl | hm
    · exact List.mem_cons_self _ _
    · exact List.mem_cons_of_mem _ hm
  · intro x hx
    rcases List.mem_cons.mp hx with rfl | hm
    · exact h3
    · exact h4 x hm

/-- C1 (amended): when the strike table has exactly one adjacent sign change
(in particular v1 < 0 < v2 between S1 < S2), `find_key_levels` returns that
crossing S1 + |v1|/(|v1|+|v2|)×(S2-S1) ROUNDED to two decimals; with several
sign changes it returns, rounded to two decimals, an interpolated crossing
whose distance to spot is minimal among all crossings. -/
theorem find_gamma_flip_spec (spot : ℚ) (rows : List StrikeRow) :
    (∀ c, crossings rows = [c] → find_gamma_flip spot rows = some (round2 c)) ∧
    (crossings rows ≠ [] →
      ∃ c ∈ crossings rows, find_gamma_flip spot rows = some (round2 c) ∧
        ∀ c' ∈ crossings rows, |c - spot| ≤ |c' - spot|) := by
  have key : crossings rows ≠ [] →
      ∃ c ∈ crossings rows, find_gamma_flip spot rows = some (round2 c) ∧
        ∀ c' ∈ crossings rows, |c - spot| ≤ |c' - spot| := by
    intro hne
    rcases hcr : crossings rows with _ | ⟨c, cs⟩
    · exact absurd hcr hne
    · have hadj : adj_crossings (sort_by_strike rows) = c :: cs := hcr
      obtain ⟨fp', h1, h2, h3⟩ := flip_fold_none_spec spot c cs
      refine ⟨fp', h2, ?_, ?_⟩
      · unfold find_gamma_flip
        rw [flip_scan_eq_fold, hadj, h1]
        rfl
      · exact h3
  refine ⟨?_, key⟩
  intro c hc
  obtain ⟨c', hc', heq, _⟩ := key (by rw [hc]; simp)
  rw [hc] at hc'
  simp only [List.mem_singleton] at hc'
  subst hc'
  exact heq

/-- C1 witness: the table `rows_w1` has two crossings 1/2 and 3/2; at spot 0
the returned flip is the rounded crossing closest to spot. -/
theorem find_gamma_flip_spec_witness :
    crossings rows_w1 ≠ [] ∧
    ∃ c ∈ crossings rows_w1, find_gamma_flip 0 rows_w1 = some (round2 c) ∧
      ∀ c' ∈ crossings rows_w1, |c - 0| ≤ |c' - 0| :=
  ⟨by
    norm_num [crossings, sort_by_strike, adj_crossings, rows_w1,
      List.insertionSort, List.orderedInsert]
    simp,
   (find_gamma_flip_spec 0 rows_w1).2 (by
    norm_num [crossings, sort_by_strike, adj_crossings, rows_w1,
      List.insertionSort, List.orderedInsert]
    simp)⟩
